import Mathlib

/-!
Verification development for the LoadCore test-orchestration adapter
(LoadCoreLib.py).  Python string/number manipulation is embedded over
lists of characters, rational numbers stand for Python floats, and the
sleep-based polling loops are embedded as fuel-indexed recursions where
the fuel mirrors the loop's wait counter.
-/

/-- Python strings are modelled as lists of characters. -/
abbrev Str := List Char

/-- Test whether the pattern is a prefix of the string (character-wise). -/
def isPre : Str → Str → Bool
  | [], _ => true
  | _ :: _, [] => false
  | a :: as, b :: bs => a == b && isPre as bs

/-- Python substring containment, the test written in the source as
the expression with the in keyword, scanning left to right. -/
def hasSub (sep : Str) : Str → Bool
  | [] => isPre sep []
  | c :: rest => isPre sep (c :: rest) || hasSub sep rest

/-- The text before the first occurrence of the separator: the piece at
index 0 of a Python split.  When the separator does not occur this is the
whole string, matching the Python behaviour of split. -/
def beforeFirst (sep : Str) : Str → Str
  | [] => []
  | c :: rest => if isPre sep (c :: rest) then [] else c :: beforeFirst sep rest

/-- The text after the first occurrence of the separator, or none when
the separator does not occur. -/
def afterFirst (sep : Str) : Str → Option Str
  | [] => none
  | c :: rest =>
    if isPre sep (c :: rest) then some (List.drop sep.length (c :: rest))
    else afterFirst sep rest

/-- The piece at index 1 of a Python split: the text between the first
and the second occurrence of the separator (the rest of the string when
the separator occurs only once).  None when the separator does not occur,
where the Python index access would raise. -/
def pyPart1 (sep s : Str) : Option Str := (afterFirst sep s).map (beforeFirst sep)

/-- Python whitespace test used by the strip method. -/
def isPyWS (c : Char) : Bool :=
  c == ' ' || c == '\t' || c == '\n' || c == '\r' || c == '\x0b' || c == '\x0c'

/-- The Python strip method: drop whitespace from both ends. -/
def stripL (s : Str) : Str :=
  ((s.dropWhile isPyWS).reverse.dropWhile isPyWS).reverse

/-- Lower-casing a string, modelling the case-insensitive regex flag. -/
def toLowerL (s : Str) : Str := s.map Char.toLower

/-- Value of a string of decimal digits. -/
def digitsVal (s : Str) : Nat :=
  s.foldl (fun a c => 10 * a + (c.toNat - 48)) 0

/-- All characters are decimal digits. -/
def allDigits (s : Str) : Bool := s.all Char.isDigit

/-- The Python int constructor on an already stripped string: an optional
sign followed by at least one digit.  Parse failure, where Python raises
ValueError, is none. -/
def parseInt (s : Str) : Option Int :=
  match s with
  | '-' :: rest =>
    if rest ≠ [] ∧ allDigits rest then some (-(digitsVal rest : Int)) else none
  | '+' :: rest =>
    if rest ≠ [] ∧ allDigits rest then some ((digitsVal rest : Int)) else none
  | _ => if s ≠ [] ∧ allDigits s then some ((digitsVal s : Int)) else none

/-- Unsigned part of the Python float constructor restricted to plain
decimal literals: digits with one optional decimal point, at least one
digit overall.  Exponents and the special spellings inf and nan are not
modelled; the test-case threshold values are plain decimals. -/
def parseUFloat (s : Str) : Option ℚ :=
  match afterFirst ['.'] s with
  | none => if s ≠ [] ∧ allDigits s then some (mkRat (digitsVal s) 1) else none
  | some frac =>
    let ip := beforeFirst ['.'] s
    if (ip ≠ [] ∨ frac ≠ []) ∧ allDigits ip ∧ allDigits frac ∧ ¬ hasSub ['.'] frac then
      some (mkRat (digitsVal ip * 10 ^ frac.length + digitsVal frac) (10 ^ frac.length))
    else none

/-- The Python float constructor on decimal literals: surrounding
whitespace is tolerated, then an optional sign and an unsigned decimal.
Parse failure, where Python raises ValueError, is none. -/
def parseFloat (s : Str) : Option ℚ :=
  match stripL s with
  | '-' :: rest => (parseUFloat rest).map Neg.neg
  | '+' :: rest => parseUFloat rest
  | t => parseUFloat t

/-- The Python max builtin on a list of numbers: none on the empty list,
where Python raises ValueError. -/
def maxList : List ℚ → Option ℚ
  | [] => none
  | x :: xs => some (xs.foldl max x)

/-- Membership of a Python float in a Python range object with the given
integer bounds, the lower inclusive and the upper exclusive.  A float is
a member exactly when it equals one of the integers of the range. -/
def inPyRange (q : ℚ) (a b : ℤ) : Bool :=
  q.den == 1 && decide (a ≤ q.num) && decide (q.num < b)

example : isPre ['a','b'] ['a','b','c'] = true := by decide
example : hasSub ['<','='] ['a','<','=','5'] = true := by decide
example : beforeFirst ['<','='] ['a','<','=','5'] = ['a'] := by decide
example : pyPart1 ['<','='] ['a','<','=','5'] = some ['5'] := by decide
example : parseFloat (' ' :: '5' :: '.' :: '2' :: []) = some (mkRat 26 5) := by decide
example : parseInt ['-', '3'] = some (-3) := by decide
example : maxList [2, 7, 5] = some 7 := by decide
example : inPyRange (mkRat 3 2) 1 4 = false := by decide
example : inPyRange 2 1 4 = true := by decide

namespace Main

/-- Modelled from the spec: the comparison table supplied by the external
automation host (the mainObj attribute named operators), used by the
run-time KPI check.  It maps each operator symbol the parser records to
the corresponding numeric comparison; the symbol recorded for a == (or =)
expression is the single character =.  A dict lookup of an unknown key
yields none. -/
def operators (op : Str) : Option (ℚ → ℚ → Bool) :=
  if op = ['<', '='] then some (fun a b => a ≤ b)
  else if op = ['>', '='] then some (fun a b => b ≤ a)
  else if op = ['>'] then some (fun a b => b < a)
  else if op = ['<'] then some (fun a b => a < b)
  else if op = ['='] then some (fun a b => a == b)
  else none

/-- The operator scan of the run-time KPI check in Main.runTestcase
(the elif chain over the expression string): the recorded operator
symbol, the expected-value substring after the operator, and the KPI
name, which is the substring before the recorded operator symbol with
surrounding whitespace stripped.  None when no operator occurs, where
the Python code would hit an unbound variable. -/
def parseKpiExpr (e : Str) : Option (Str × Str × Str) :=
  if hasSub ['<', '='] e then
    (pyPart1 ['<', '='] e).map fun ev => (['<', '='], ev, stripL (beforeFirst ['<', '='] e))
  else if hasSub ['>', '='] e then
    (pyPart1 ['>', '='] e).map fun ev => (['>', '='], ev, stripL (beforeFirst ['>', '='] e))
  else if hasSub ['>'] e then
    (pyPart1 ['>'] e).map fun ev => (['>'], ev, stripL (beforeFirst ['>'] e))
  else if hasSub ['<'] e then
    (pyPart1 ['<'] e).map fun ev => (['<'], ev, stripL (beforeFirst ['<'] e))
  else if hasSub ['=', '='] e then
    (pyPart1 ['=', '='] e).map fun ev => (['='], ev, stripL (beforeFirst ['='] e))
  else if hasSub ['='] e then
    (pyPart1 ['='] e).map fun ev => (['='], ev, stripL (beforeFirst ['='] e))
  else none

/-- One run-time KPI evaluation of Main.runTestcase: parse the user
expression, take the maximum of the accumulated samples of the runtime
KPI, then either check the integer range when the expected value contains
a dash, or apply the comparison operator to the maximum and the expected
value parsed as a float.  The result is the string recorded in
kpiStatTracker; none models an exception escaping the evaluation. -/
def evalKpi (e : Str) (samples : List ℚ) : Option String :=
  match parseKpiExpr e with
  | none => none
  | some (op, ev, _kpi) =>
    match maxList samples with
    | none => none
    | some maxValue =>
      if hasSub ['-'] ev then
        match parseInt (stripL (beforeFirst ['-'] ev)),
              (pyPart1 ['-'] ev).bind (fun t => parseInt (stripL t)) with
        | some lo, some hi =>
          if inPyRange maxValue lo (hi + 1) then some "passed" else some "failed"
        | _, _ => none
      else
        match operators op, parseFloat ev with
        | some rel, some v =>
          if rel maxValue v then some "passed" else some "failed"
        | _, _ => none

/-- The KPI-name extraction of Main.createKpiTracker: the same elif
chain, except that the single-character operators are tried in the order
less-than before greater-than and the extracted name is not stripped.
None models the unbound-variable error when no operator occurs. -/
def createKpiTrackerName (e : Str) : Option Str :=
  if hasSub ['<', '='] e then some (beforeFirst ['<', '='] e)
  else if hasSub ['>', '='] e then some (beforeFirst ['>', '='] e)
  else if hasSub ['<'] e then some (beforeFirst ['<'] e)
  else if hasSub ['>'] e then some (beforeFirst ['>'] e)
  else if hasSub ['=', '='] e then some (beforeFirst ['=', '='] e)
  else if hasSub ['='] e then some (beforeFirst ['='] e)
  else none

end Main

example : Main.parseKpiExpr "Registration Succeeded>=20".toList
  = some (['>', '='], "20".toList, "Registration Succeeded".toList) := by decide
example : Main.evalKpi "Registration Succeeded>=20".toList [5, 25] = some "passed" := by decide
example : Main.evalKpi "Registration Succeeded>=20".toList [5, 15] = some "failed" := by decide
example : Main.evalKpi "Bits Received/s=430-450".toList [440] = some "passed" := by decide
example : Main.evalKpi "kpi==-5".toList [-5] = none := by decide
example : Main.createKpiTrackerName "a <=5".toList = some "a ".toList := by decide

namespace MW

/-- The maximum helper MW.getMaxStat, the Python max builtin applied to
one accumulated stat list. -/
def getMaxStat (stat : List ℚ) : Option ℚ := maxList stat

/-- Outcome of MW.startTest.  An exception raised through logError
aborts the test; the distinct raise sites are kept apart. -/
inductive StartOutcome
  /-- A poll of the given attempt reached state SUCCESS at the given
  poll index: the test id is recorded and the state JSON returned. -/
  | success (attempt pollIdx : Nat)
  /-- A poll response of the given attempt carried no state field, so
  the access of that field raised. -/
  | raisedMissingState (attempt pollIdx : Nat)
  /-- A poll reported state ERROR while the retry flag was already set:
  logError raised. -/
  | raisedSecondError (attempt pollIdx : Nat)
  /-- The wait budget of the first attempt ran out with the retry flag
  still clear: the loop's else clause performed the recovery and posted
  the start operation a second time, but control then fell through to
  the final logError, which raised without ever polling that second
  operation. -/
  | raisedTimeoutAfterRecovery
  /-- The wait budget ran out with the retry flag set: logError raised. -/
  | raisedTimeout
deriving DecidableEq

/-- The polling loop of MW.startTest once the retry flag is set: the
second posted start operation is polled until SUCCESS returns, ERROR
raises, or the wait budget runs out and the loop's else clause raises.
polls gives the state field of each GET response, none when the field
is missing. -/
def startTestRetryLoop (polls : Nat → Nat → Option String) : Nat → Nat → StartOutcome
  | 0, _ => .raisedTimeout
  | wait + 1, pollIdx =>
    match polls 2 pollIdx with
    | none => .raisedMissingState 2 pollIdx
    | some st =>
      if st = "SUCCESS" then .success 2 pollIdx
      else if st = "ERROR" then .raisedSecondError 2 pollIdx
      else startTestRetryLoop polls wait (pollIdx + 1)

/-- The polling loop of MW.startTest for the first posted start
operation, with the retry flag clear.  On ERROR the recovery runs
(license check, session state check, agent reboot) and the second start
operation is posted with the wait counter reset to the full budget; the
decrement at the loop's foot then leaves waitTime - 1 for the retry
loop.  When the budget runs out the loop's else clause posts the second
operation but control falls through to the final logError. -/
def startTestFirstLoop (polls : Nat → Nat → Option String) (waitTime : Nat) :
    Nat → Nat → StartOutcome
  | 0, _ => .raisedTimeoutAfterRecovery
  | wait + 1, pollIdx =>
    match polls 1 pollIdx with
    | none => .raisedMissingState 1 pollIdx
    | some st =>
      if st = "SUCCESS" then .success 1 pollIdx
      else if st = "ERROR" then startTestRetryLoop polls (waitTime - 1) 0
      else startTestFirstLoop polls waitTime wait (pollIdx + 1)

/-- MW.startTest: post the start operation, then run the polling loop
with the given wait budget (the source default is 90). -/
def startTest (polls : Nat → Nat → Option String) (waitTime : Nat) : StartOutcome :=
  startTestFirstLoop polls waitTime waitTime 0

/-- The shared generate-then-poll loop of MW.getPDFreport, MW.getCSVs
and MW.getCapturedLogs: poll the generate operation while the wait
counter is positive, decrementing it by 5 per iteration.  Some k means
state SUCCESS was reached at poll k; none means an ERROR state or an
exhausted budget.  The fuel argument only bounds the recursion and is
set to the wait counter itself, which suffices because every iteration
consumes at least one unit of wait. -/
def artifactPollAux (states : Nat → String) : Nat → Nat → Nat → Option Nat
  | 0, _, _ => none
  | fuel + 1, w, k =>
    if w = 0 then none
    else if states k = "SUCCESS" then some k
    else if states k = "ERROR" then none
    else artifactPollAux states fuel (w - 5) (k + 1)

/-- The generate-operation polling loop started with a full wait
counter. -/
def artifactPoll (states : Nat → String) (wait : Nat) : Option Nat :=
  artifactPollAux states wait wait 0

/-- MW.getPDFreport: none when the generate-pdf POST does not return the
expected status code, when a poll reports ERROR, or when the budget runs
out; otherwise the path of the PDF file written into the test-case
results folder. -/
def getPDFreport (postOk : Bool) (states : Nat → String) (wait : Nat)
    (resultsFolder testcaseName : String) : Option String :=
  if postOk = false then none
  else
    match artifactPoll states wait with
    | none => none
    | some _ => some (resultsFolder ++ "/" ++ testcaseName ++ ".pdf")

/-- MW.getCSVs: none under the same three conditions; otherwise the path
of the CSV zip archive written into the test-case results folder.  The
unzipping and per-file JSON conversion between download and return are
abstracted. -/
def getCSVs (postOk : Bool) (states : Nat → String) (wait : Nat)
    (resultsFolder testcaseName : String) : Option String :=
  if postOk = false then none
  else
    match artifactPoll states wait with
    | none => none
    | some _ => some (resultsFolder ++ "/" ++ testcaseName ++ "_csv.zip")

/-- MW.getCapturedLogs: none under the same three conditions; otherwise
the path built from the results folder, the test-case name and the
archive name taken from the Content-Disposition header. -/
def getCapturedLogs (postOk : Bool) (states : Nat → String) (wait : Nat)
    (resultsFolder testcaseName dispositionName : String) : Option String :=
  if postOk = false then none
  else
    match artifactPoll states wait with
    | none => none
    | some _ => some (resultsFolder ++ "/" ++ testcaseName ++ "-" ++ dispositionName)

end MW

example : MW.startTest (fun a _ => if a = 1 then some "RUNNING" else some "SUCCESS") 90
  = .raisedTimeoutAfterRecovery := by decide
example : MW.startTest (fun a _ => if a = 1 then some "ERROR" else some "SUCCESS") 90
  = .success 2 0 := by decide
example : MW.startTest (fun _ k => if k = 3 then some "SUCCESS" else some "RUNNING") 90
  = .success 1 3 := by decide
example : MW.getPDFreport true (fun _ => "SUCCESS") 120 "f" "tc" = some "f/tc.pdf" := by decide
example : MW.getPDFreport true (fun _ => "RUNNING") 120 "f" "tc" = none := by decide
example : MW.getPDFreport true (fun k => if k = 2 then "ERROR" else "RUNNING") 120 "f" "tc"
  = none := by decide

namespace MW

/-- A value of the dictionary returned by MW.getAllStats: a full
time series in the timestamp branch, a single sum in the other branch. -/
inductive StatValue
  /-- One entry per snapshot, in snapshot order. -/
  | series (vals : List ℚ)
  /-- The sum of one column of the first snapshot. -/
  | total (v : ℚ)
deriving DecidableEq

/-- Assignment into a Python dict kept as an association list in
insertion order: an existing key keeps its position and gets the new
value, a new key is appended. -/
def dictInsert (d : List (String × StatValue)) (k : String) (v : StatValue) :
    List (String × StatValue) :=
  if d.any (fun p => p.1 = k) then d.map (fun p => if p.1 = k then (k, v) else p)
  else d ++ [(k, v)]

/-- The statList of the timestamp branch of MW.getAllStats for one
column: the value at row 0, column c of every snapshot, in snapshot
order.  None when an index is out of range, where Python raises inside
the try block. -/
def colSeries (snaps : List (List (List ℚ))) (c : Nat) : Option (List ℚ) :=
  match snaps with
  | [] => some []
  | snap :: rest =>
    match (snap.get? 0).bind (fun row => row.get? c), colSeries rest c with
    | some v, some vs => some (v :: vs)
    | _, _ => none

/-- The statList of the SBI branch of MW.getAllStats for one column:
the sum over all rows of the first snapshot of the value at column c.
None when an index is out of range. -/
def colSum (rows : List (List ℚ)) (c : Nat) : Option ℚ :=
  match rows with
  | [] => some 0
  | row :: rest =>
    match row.get? c, colSum rest c with
    | some v, some s => some (v + s)
    | _, _ => none

/-- The column loop of the timestamp branch: for each remaining column
name, in order, assign its time series into the dict.  The column index
starts at 1, skipping the timestamp column. -/
def buildSeries (snaps : List (List (List ℚ))) :
    List String → Nat → List (String × StatValue) → Option (List (String × StatValue))
  | [], _, acc => some acc
  | n :: ns, idx, acc =>
    match colSeries snaps idx with
    | none => none
    | some vs => buildSeries snaps ns (idx + 1) (dictInsert acc n (.series vs))

/-- The column loop of the SBI branch: for each remaining column name,
in order, assign the column sum of the first snapshot into the dict. -/
def buildSums (rows : List (List ℚ)) :
    List String → Nat → List (String × StatValue) → Option (List (String × StatValue))
  | [], _, acc => some acc
  | n :: ns, idx, acc =>
    match colSum rows idx with
    | none => none
    | some s => buildSums rows ns (idx + 1) (dictInsert acc n (.total s))

/-- MW.getAllStats.  statusOk is whether the GET returned the expected
status code; columns is the columns field of the response (none for
JSON null); snaps holds the values array of each snapshot, each a list
of rows of numbers.  The ok none results model the explicit and the
fall-through returns of None; the error result models an exception
propagating out: an empty columns list makes the subscript of its first
element raise outside any try block, and a failure inside the timestamp
branch is caught but re-raised through logError, while a failure inside
the SBI branch is caught and only logged, falling through to None. -/
def getAllStats (statusOk : Bool) (columns : Option (List String))
    (snaps : List (List (List ℚ))) : Except Unit (Option (List (String × StatValue))) :=
  if statusOk = false then .ok none
  else
    match columns with
    | none => .ok none
    | some [] => .error ()
    | some (c0 :: rest) =>
      if c0 = "timestamp" then
        match buildSeries snaps rest 1 [] with
        | some d => .ok (some d)
        | none => .error ()
      else
        match snaps with
        | [] => .ok none
        | s0 :: _ =>
          match buildSums s0 rest 1 [] with
          | some d => .ok (some d)
          | none => .ok none

end MW

namespace Utils

/-- Utils.convertCsvFileToJsonFile over the rows the csv reader yields:
the rows are appended one by one to the JSON array, then the array is
written out.  writeOk is whether writing (and the chmod that follows it
inside the same try block) succeeds; the pair returned is the function
result and the content written, none when nothing was written. -/
def convertCsvFileToJsonFile (rows : List (List String)) (writeOk : Bool) :
    Bool × Option (List (List String)) :=
  let jsonArray := rows.foldl (fun acc row => acc ++ [row]) []
  if writeOk then (true, some jsonArray) else (false, none)

end Utils

namespace Main

/-- The loop exit test of the KPI polling loop of Main.runTestcase,
applied to the status string MW.getSessionStatus returns. -/
def stopStatus (s : String) : Bool := s = "STOPPING" || s = "STOPPED"

/-- The KPI polling loop of Main.runTestcase, reduced to its
control flow: at iteration k the stats are polled and evaluated, then
the session status is fetched; the loop breaks when the status is
STOPPING or STOPPED and otherwise sleeps and repeats.  The result is
the iteration at which the loop exits normally, none when the fuel runs
out with the loop still running (the real loop has no bound). -/
def pollLoopExit (statuses : Nat → String) : Nat → Nat → Option Nat
  | 0, _ => none
  | fuel + 1, k =>
    if stopStatus (statuses k) then some k else pollLoopExit statuses fuel (k + 1)

/-- The sleep length of one iteration of the polling loop, in seconds:
the configured pollStatInterval times 100, or 0.30 times 100 when it is
unset. -/
def setPollInterval (pollStatInterval : Option ℚ) : ℚ :=
  match pollStatInterval with
  | none => (0.30 : ℚ) * 100
  | some p => p * 100

/-- The amount subtracted from the remaining-duration counter after one
iteration of the polling loop, in seconds. -/
def pollInterval (pollStatInterval : Option ℚ) : ℚ :=
  match pollStatInterval with
  | none => (0.30 : ℚ)
  | some p => p

/-- The Python list index method: position of the first occurrence. -/
def idxOf (x : String) : List String → Nat
  | [] => 0
  | y :: ys => if y = x then 0 else idxOf x ys + 1

/-- The user-expression match test of Main.runTestcase, which calls
re.match with the runtime KPI name as the pattern and the IGNORECASE
flag: for a pattern free of regex metacharacters this is a
case-insensitive prefix test, which is how the source uses it. -/
def kpiNameMatches (runtimeKpi expr : String) : Bool :=
  isPre (toLowerL runtimeKpi.toList) (toLowerL expr.toList)

/-- The expression-selection loop of Main.runTestcase: scan the KPI list
and, at each expression the runtime KPI matches, overwrite the index
with the position the list index method reports for that expression. -/
def findKpiIndex (m : String → Bool) (l : List String) : Option Nat :=
  l.foldl (fun acc x => if m x then some (idxOf x l) else acc) none

end Main

namespace MW

/-- Specification-side companion for the timestamp branch: the optional
list of per-column time series, one for each remaining column name, at
consecutive column indices. -/
def colSeriesList (snaps : List (List (List ℚ))) : List String → Nat → Option (List (List ℚ))
  | [], _ => some []
  | _ :: ns, idx =>
    match colSeries snaps idx, colSeriesList snaps ns (idx + 1) with
    | some v, some vs => some (v :: vs)
    | _, _ => none

/-- Specification-side companion for the SBI branch: the optional list
of per-column sums over the first snapshot at consecutive column
indices. -/
def colSumList (rows : List (List ℚ)) : List String → Nat → Option (List ℚ)
  | [], _ => some []
  | _ :: ns, idx =>
    match colSum rows idx, colSumList rows ns (idx + 1) with
    | some v, some vs => some (v :: vs)
    | _, _ => none

end MW

example : Main.pollLoopExit (fun k => if k = 2 then "STOPPED" else "RUNNING") 9 0
  = some 2 := by decide
example : Main.findKpiIndex (Main.kpiNameMatches "reg")
  ["Registration Initiated=100", "REGISTRATION Succeeded=20"] = some 1 := by decide
example : Main.findKpiIndex (Main.kpiNameMatches "xyz")
  ["Registration Initiated=100"] = none := by decide
example : MW.getAllStats true (some ["timestamp", "a", "b"])
  [[[0, 1, 10]], [[1, 2, 20]]]
  = .ok (some [("a", .series [1, 2]), ("b", .series [10, 20])]) := rfl

theorem isPre_append (sep w : Str) : isPre sep (sep ++ w) = true := by
  induction sep with
  | nil => rfl
  | cons c cs ih => simp [isPre, ih]

theorem mem_of_isPre {sep s : Str} (h : isPre sep s = true) : ∀ c ∈ sep, c ∈ s := by
  induction sep generalizing s with
  | nil => simp
  | cons a as ih =>
    match s with
    | [] => simp [isPre] at h
    | b :: bs =>
      simp only [isPre, Bool.and_eq_true, beq_iff_eq] at h
      obtain ⟨hab, hrest⟩ := h
      intro c hc
      rcases List.mem_cons.mp hc with rfl | hc
      · exact hab ▸ List.mem_cons_self _ _
      · exact List.mem_cons_of_mem _ (ih hrest c hc)

theorem mem_of_hasSub {sep s : Str} (h : hasSub sep s = true) : ∀ c ∈ sep, c ∈ s := by
  induction s with
  | nil =>
    intro c hc
    exact absurd (mem_of_isPre (by simpa [hasSub] using h) c hc) (List.not_mem_nil c)
  | cons b bs ih =>
    simp only [hasSub, Bool.or_eq_true] at h
    intro c hc
    rcases h with h | h
    · exact mem_of_isPre h c hc
    · exact List.mem_cons_of_mem _ (ih h c hc)

theorem hasSub_eq_false {sep s : Str} {c : Char} (hc : c ∈ sep) (hs : c ∉ s) :
    hasSub sep s = false := by
  by_contra h
  exact hs (mem_of_hasSub (by simpa using h) c hc)

theorem hasSub_of_isPre {sep s : Str} (h : isPre sep s = true) : hasSub sep s = true := by
  match s with
  | [] => simpa [hasSub] using h
  | b :: bs => simp [hasSub, h]

theorem neq_head_of_not_mem {c0 a : Char} {s : Str} (h : c0 ∉ a :: s) : (c0 == a) = false := by
  simp only [List.mem_cons, not_or] at h
  simpa [beq_eq_false_iff_ne] using h.1

theorem not_mem_tail_of_not_mem {c0 a : Char} {s : Str} (h : c0 ∉ a :: s) : c0 ∉ s := by
  simp only [List.mem_cons, not_or] at h
  exact h.2

theorem hasSub_append (sep n w : Str) : hasSub sep (n ++ (sep ++ w)) = true := by
  induction n with
  | nil => simpa using hasSub_of_isPre (isPre_append sep w)
  | cons a n' ih => simpa [hasSub] using Or.inr ih

theorem beforeFirst_append {c0 : Char} {sep' : Str} {n : Str} (w : Str) (hn : c0 ∉ n) :
    beforeFirst (c0 :: sep') (n ++ ((c0 :: sep') ++ w)) = n := by
  induction n with
  | nil =>
    have h1 : isPre (c0 :: sep') (c0 :: (sep' ++ w)) = true := isPre_append (c0 :: sep') w
    simp [beforeFirst, h1]
  | cons a n' ih =>
    have hne := neq_head_of_not_mem hn
    have ih' := ih (not_mem_tail_of_not_mem hn)
    simp only [List.cons_append] at ih' ⊢
    simp [beforeFirst, isPre, hne, ih']

theorem afterFirst_append {c0 : Char} {sep' : Str} {n : Str} (w : Str) (hn : c0 ∉ n) :
    afterFirst (c0 :: sep') (n ++ ((c0 :: sep') ++ w)) = some w := by
  induction n with
  | nil =>
    have h1 : isPre (c0 :: sep') (c0 :: (sep' ++ w)) = true := isPre_append (c0 :: sep') w
    have h2 : List.drop (c0 :: sep').length (c0 :: (sep' ++ w)) = w := List.drop_left (c0 :: sep') w
    simp [afterFirst, List.append_eq, h1, h2]
  | cons a n' ih =>
    have hne := neq_head_of_not_mem hn
    have ih' := ih (not_mem_tail_of_not_mem hn)
    simp only [List.cons_append] at ih' ⊢
    simp [afterFirst, isPre, hne, ih']

theorem beforeFirst_of_not_mem {c0 : Char} {sep' : Str} {s : Str} (hs : c0 ∉ s) :
    beforeFirst (c0 :: sep') s = s := by
  induction s with
  | nil => rfl
  | cons a s' ih =>
    have hne := neq_head_of_not_mem hs
    simp [beforeFirst, isPre, hne, ih (not_mem_tail_of_not_mem hs)]

theorem afterFirst_of_not_mem {c0 : Char} {sep' : Str} {s : Str} (hs : c0 ∉ s) :
    afterFirst (c0 :: sep') s = none := by
  induction s with
  | nil => rfl
  | cons a s' ih =>
    have hne := neq_head_of_not_mem hs
    simp [afterFirst, isPre, hne, ih (not_mem_tail_of_not_mem hs)]

theorem le_foldl_max (xs : List ℚ) (a : ℚ) : a ≤ xs.foldl max a := by
  induction xs generalizing a with
  | nil => exact le_refl a
  | cons x xs ih => exact le_trans (le_max_left a x) (ih (max a x))

theorem mem_le_foldl_max (xs : List ℚ) (a : ℚ) : ∀ y ∈ xs, y ≤ xs.foldl max a := by
  induction xs generalizing a with
  | nil => simp
  | cons x xs ih =>
    intro y hy
    rcases List.mem_cons.mp hy with rfl | hy
    · exact le_trans (le_max_right a y) (le_foldl_max xs (max a y))
    · exact ih (max a x) y hy

theorem foldl_max_mem (xs : List ℚ) (a : ℚ) : xs.foldl max a = a ∨ xs.foldl max a ∈ xs := by
  induction xs generalizing a with
  | nil => exact Or.inl rfl
  | cons x xs ih =>
    rcases ih (max a x) with h | h
    · rcases max_choice a x with hc | hc
      · refine Or.inl ?_
        show List.foldl max (max a x) xs = a
        exact h.trans hc
      · refine Or.inr ?_
        show List.foldl max (max a x) xs ∈ x :: xs
        exact List.mem_cons.mpr (Or.inl (h.trans hc))
    · exact Or.inr (List.mem_cons_of_mem _ h)

theorem maxList_spec {l : List ℚ} {m : ℚ} (h : maxList l = some m) :
    m ∈ l ∧ ∀ y ∈ l, y ≤ m := by
  match l with
  | [] => simp [maxList] at h
  | x :: xs =>
    have hm : m = xs.foldl max x := by simpa [maxList] using h.symm
    subst hm
    refine ⟨?_, ?_⟩
    · rcases foldl_max_mem xs x with h | h
      · exact List.mem_cons.mpr (Or.inl h)
      · exact List.mem_cons_of_mem _ h
    · intro y hy
      rcases List.mem_cons.mp hy with rfl | hy
      · exact le_foldl_max xs y
      · exact mem_le_foldl_max xs x y hy

theorem inPyRange_iff {q : ℚ} {a b : ℤ} :
    inPyRange q a b = true ↔ ∃ k : ℤ, a ≤ k ∧ k < b ∧ (k : ℚ) = q := by
  unfold inPyRange
  simp only [Bool.and_eq_true, beq_iff_eq, decide_eq_true_eq]
  constructor
  · rintro ⟨⟨hden, ha⟩, hb⟩
    exact ⟨q.num, ha, hb, Rat.coe_int_num_of_den_eq_one hden⟩
  · rintro ⟨k, ha, hb, rfl⟩
    refine ⟨⟨Rat.den_intCast k, ?_⟩, ?_⟩ <;> simpa [Rat.num_intCast] using by assumption

/-- C1.  The claim as frozen fails: an expected value that parses as a
negative float contains a dash, so the run-time check takes the range
branch, where the integer conversion of the empty substring before the
dash raises instead of comparing the running maximum with the operator.
Here the expression kpi==-5 with running maximum -5 satisfies the ==
comparison, yet the evaluation raises (none) rather than recording
passed. -/
theorem c1_counterexample_negative_expected :
    parseFloat "-5".toList = some (-5) ∧
    maxList [(-5 : ℚ)] = some (-5) ∧
    (((-5 : ℚ)) == (-5 : ℚ)) = true ∧
    Main.evalKpi "kpi==-5".toList [(-5 : ℚ)] ≠ some "passed" := by decide

/-- C1 (amended).  For every KPI expression the run-time parser resolves
to an operator, provided the expected-value substring contains no dash
(so it is not diverted into the range branch), the value tested is the
maximum of the entire sample list, and the recorded result is passed
exactly when that maximum satisfies the operator's comparison against
the expected value parsed as a float. -/
theorem c1_kpi_threshold_vs_running_max (e : Str) (samples : List ℚ)
    (op ev kpi : Str) (rel : ℚ → ℚ → Bool) (v m : ℚ)
    (hparse : Main.parseKpiExpr e = some (op, ev, kpi))
    (hmax : maxList samples = some m)
    (hnodash : hasSub ['-'] ev = false)
    (hrel : Main.operators op = some rel)
    (hv : parseFloat ev = some v) :
    Main.evalKpi e samples = some (if rel m v then "passed" else "failed") ∧
    m ∈ samples ∧ ∀ y ∈ samples, y ≤ m := by
  refine ⟨?_, maxList_spec hmax⟩
  cases hrmv : rel m v <;>
    simp [Main.evalKpi, hparse, hmax, hnodash, hrel, hv, hrmv]

theorem c1_kpi_threshold_vs_running_max_witness :
    Main.evalKpi "Registration Succeeded>=20".toList [(5 : ℚ), 25] = some "passed" ∧
    (25 : ℚ) ∈ [(5 : ℚ), 25] ∧ ∀ y ∈ [(5 : ℚ), 25], y ≤ (25 : ℚ) :=
  c1_kpi_threshold_vs_running_max "Registration Succeeded>=20".toList [(5 : ℚ), 25]
    ['>', '='] "20".toList "Registration Succeeded".toList
    (fun a b => b ≤ a) (mkRat 20 1) 25
    (by decide) (by decide) (by decide) rfl (by decide)

/-- C2.  The claim as frozen fails: Python range membership of a float
requires the float to equal one of the integers of the range, so a
fractional running maximum inside the bounds is recorded failed.  Here
the expression kpi=1-3 and the running maximum 3/2, which lies within
the inclusive range from 1 to 3, is recorded failed. -/
theorem c2_counterexample_fractional_max :
    ((1 : ℚ) ≤ mkRat 3 2 ∧ mkRat 3 2 ≤ 3) ∧
    maxList [mkRat 3 2] = some (mkRat 3 2) ∧
    Main.evalKpi "kpi=1-3".toList [mkRat 3 2] = some "failed" := by decide

/-- C2 (amended).  For a range expectation min-max, the recorded result
is passed exactly when the running maximum of the samples equals one of
the integers between min and max inclusive (integer membership of the
Python range object), and failed otherwise. -/
theorem c2_range_integer_membership (e : Str) (samples : List ℚ)
    (op ev kpi : Str) (lo hi : ℤ) (m : ℚ)
    (hparse : Main.parseKpiExpr e = some (op, ev, kpi))
    (hmax : maxList samples = some m)
    (hdash : hasSub ['-'] ev = true)
    (hlo : parseInt (stripL (beforeFirst ['-'] ev)) = some lo)
    (hhi : (pyPart1 ['-'] ev).bind (fun t => parseInt (stripL t)) = some hi) :
    (Main.evalKpi e samples = some "passed" ↔
      ∃ k : ℤ, lo ≤ k ∧ k ≤ hi ∧ (k : ℚ) = m) ∧
    (Main.evalKpi e samples = some "failed" ↔
      ¬ ∃ k : ℤ, lo ≤ k ∧ k ≤ hi ∧ (k : ℚ) = m) ∧
    m ∈ samples ∧ ∀ y ∈ samples, y ≤ m := by
  have heval : Main.evalKpi e samples =
      (if inPyRange m lo (hi + 1) then some "passed" else some "failed") := by
    simp [Main.evalKpi, hparse, hmax, hdash, hlo, hhi]
  have hiff : inPyRange m lo (hi + 1) = true ↔
      ∃ k : ℤ, lo ≤ k ∧ k ≤ hi ∧ (k : ℚ) = m := by
    rw [inPyRange_iff]
    constructor
    · rintro ⟨k, h1, h2, h3⟩
      exact ⟨k, h1, Int.lt_add_one_iff.mp h2, h3⟩
    · rintro ⟨k, h1, h2, h3⟩
      exact ⟨k, h1, Int.lt_add_one_iff.mpr h2, h3⟩
  have h1 : (Main.evalKpi e samples = some "passed") ↔ inPyRange m lo (hi + 1) = true := by
    rw [heval]
    cases inPyRange m lo (hi + 1) <;> simp
  have h2 : (Main.evalKpi e samples = some "failed") ↔ inPyRange m lo (hi + 1) = false := by
    rw [heval]
    cases inPyRange m lo (hi + 1) <;> simp
  refine ⟨h1.trans hiff, ?_, maxList_spec hmax⟩
  rw [h2, ← hiff]
  simp

theorem c2_range_integer_membership_witness :
    (Main.evalKpi "Bits Received/s=430-450".toList [(440 : ℚ)] = some "passed" ↔
      ∃ k : ℤ, 430 ≤ k ∧ k ≤ 450 ∧ (k : ℚ) = 440) ∧
    (Main.evalKpi "Bits Received/s=430-450".toList [(440 : ℚ)] = some "failed" ↔
      ¬ ∃ k : ℤ, 430 ≤ k ∧ k ≤ 450 ∧ (k : ℚ) = 440) ∧
    (440 : ℚ) ∈ [(440 : ℚ)] ∧ ∀ y ∈ [(440 : ℚ)], y ≤ (440 : ℚ) :=
  c2_range_integer_membership "Bits Received/s=430-450".toList [(440 : ℚ)]
    ['='] "430-450".toList "Bits Received/s".toList 430 450 440
    (by decide) (by decide) (by decide) (by decide) (by decide)

theorem not_mem_append3 {c : Char} {a b d : Str}
    (ha : c ∉ a) (hb : c ∉ b) (hd : c ∉ d) : c ∉ a ++ (b ++ d) := by
  simp only [List.mem_append, not_or]
  exact ⟨ha, hb, hd⟩

/-- C4.  The claim as frozen fails: the run-time parser strips
surrounding whitespace from the substring before the operator while
createKpiTracker does not, so on the expression with a trailing space
before the operator the two extract different names. -/
theorem c4_counterexample_strip_mismatch :
    Main.createKpiTrackerName "a <=5".toList = some "a ".toList ∧
    (Main.parseKpiExpr "a <=5".toList).map (fun t => t.2.2) = some "a".toList ∧
    "a ".toList ≠ "a".toList := by decide

/-- C4 (amended).  For an expression built from a name, one comparison
operator among the five, and a value, where neither the name nor the
value contains any operator character, createKpiTracker extracts exactly
the substring before the operator, and the run-time parser extracts that
same substring with surrounding whitespace stripped, together with the
substring after the operator as the expected value; the two names agree
whenever the substring before the operator carries no surrounding
whitespace. -/
theorem c4_parser_agreement (n v op : Str)
    (hop : op = ['<', '='] ∨ op = ['>', '='] ∨ op = ['<'] ∨ op = ['>'] ∨ op = ['=', '='])
    (hn : '<' ∉ n ∧ '>' ∉ n ∧ '=' ∉ n)
    (hv : '<' ∉ v ∧ '>' ∉ v ∧ '=' ∉ v) :
    Main.createKpiTrackerName (n ++ (op ++ v)) = some n ∧
    ∃ o, Main.parseKpiExpr (n ++ (op ++ v)) = some (o, v, stripL n) := by
  obtain ⟨hn1, hn2, hn3⟩ := hn
  obtain ⟨hv1, hv2, hv3⟩ := hv
  rcases hop with rfl | rfl | rfl | rfl | rfl
  · -- op = <=
    have hT : hasSub ['<', '='] (n ++ '<' :: '=' :: v) = true := hasSub_append _ _ _
    have hb : beforeFirst ['<', '='] (n ++ '<' :: '=' :: v) = n := beforeFirst_append v hn1
    have ha : afterFirst ['<', '='] (n ++ '<' :: '=' :: v) = some v := afterFirst_append v hn1
    have hbv : beforeFirst ['<', '='] v = v := beforeFirst_of_not_mem hv1
    refine ⟨?_, ⟨['<', '='], ?_⟩⟩
    · simp [Main.createKpiTrackerName, hT, hb]
    · simp [Main.parseKpiExpr, pyPart1, hT, hb, ha, hbv]
  · -- op = >=
    have hF1 : hasSub ['<', '='] (n ++ '>' :: '=' :: v) = false :=
      hasSub_eq_false (c := '<') (by decide)
        (not_mem_append3 (b := ['>', '=']) (d := v) hn1 (by decide) hv1)
    have hT : hasSub ['>', '='] (n ++ '>' :: '=' :: v) = true := hasSub_append _ _ _
    have hb : beforeFirst ['>', '='] (n ++ '>' :: '=' :: v) = n := beforeFirst_append v hn2
    have ha : afterFirst ['>', '='] (n ++ '>' :: '=' :: v) = some v := afterFirst_append v hn2
    have hbv : beforeFirst ['>', '='] v = v := beforeFirst_of_not_mem hv2
    refine ⟨?_, ⟨['>', '='], ?_⟩⟩
    · simp [Main.createKpiTrackerName, hF1, hT, hb]
    · simp [Main.parseKpiExpr, pyPart1, hF1, hT, hb, ha, hbv]
  · -- op = <
    have hne : '=' ∉ n ++ (['<'] ++ v) := not_mem_append3 hn3 (by decide) hv3
    have hgt : '>' ∉ n ++ (['<'] ++ v) := not_mem_append3 hn2 (by decide) hv2
    have hF1 : hasSub ['<', '='] (n ++ '<' :: v) = false :=
      hasSub_eq_false (c := '=') (by decide) hne
    have hF2 : hasSub ['>', '='] (n ++ '<' :: v) = false :=
      hasSub_eq_false (c := '>') (by decide) hgt
    have hF3 : hasSub ['>'] (n ++ '<' :: v) = false :=
      hasSub_eq_false (c := '>') (by decide) hgt
    have hT : hasSub ['<'] (n ++ '<' :: v) = true := hasSub_append _ _ _
    have hb : beforeFirst ['<'] (n ++ '<' :: v) = n := beforeFirst_append v hn1
    have ha : afterFirst ['<'] (n ++ '<' :: v) = some v := afterFirst_append v hn1
    have hbv : beforeFirst ['<'] v = v := beforeFirst_of_not_mem hv1
    refine ⟨?_, ⟨['<'], ?_⟩⟩
    · simp [Main.createKpiTrackerName, hF1, hF2, hT, hb]
    · simp [Main.parseKpiExpr, pyPart1, hF1, hF2, hF3, hT, hb, ha, hbv]
  · -- op = >
    have hne : '=' ∉ n ++ (['>'] ++ v) := not_mem_append3 hn3 (by decide) hv3
    have hlt : '<' ∉ n ++ (['>'] ++ v) := not_mem_append3 hn1 (by decide) hv1
    have hF1 : hasSub ['<', '='] (n ++ '>' :: v) = false :=
      hasSub_eq_false (c := '<') (by decide) hlt
    have hF2 : hasSub ['>', '='] (n ++ '>' :: v) = false :=
      hasSub_eq_false (c := '=') (by decide) hne
    have hF3 : hasSub ['<'] (n ++ '>' :: v) = false :=
      hasSub_eq_false (c := '<') (by decide) hlt
    have hT : hasSub ['>'] (n ++ '>' :: v) = true := hasSub_append _ _ _
    have hb : beforeFirst ['>'] (n ++ '>' :: v) = n := beforeFirst_append v hn2
    have ha : afterFirst ['>'] (n ++ '>' :: v) = some v := afterFirst_append v hn2
    have hbv : beforeFirst ['>'] v = v := beforeFirst_of_not_mem hv2
    refine ⟨?_, ⟨['>'], ?_⟩⟩
    · simp [Main.createKpiTrackerName, hF1, hF2, hF3, hT, hb]
    · simp [Main.parseKpiExpr, pyPart1, hF1, hF2, hT, hb, ha, hbv]
  · -- op = ==
    have hlt : '<' ∉ n ++ (['=', '='] ++ v) := not_mem_append3 hn1 (by decide) hv1
    have hgt : '>' ∉ n ++ (['=', '='] ++ v) := not_mem_append3 hn2 (by decide) hv2
    have hF1 : hasSub ['<', '='] (n ++ '=' :: '=' :: v) = false :=
      hasSub_eq_false (c := '<') (by decide) hlt
    have hF2 : hasSub ['>', '='] (n ++ '=' :: '=' :: v) = false :=
      hasSub_eq_false (c := '>') (by decide) hgt
    have hF3 : hasSub ['>'] (n ++ '=' :: '=' :: v) = false :=
      hasSub_eq_false (c := '>') (by decide) hgt
    have hF4 : hasSub ['<'] (n ++ '=' :: '=' :: v) = false :=
      hasSub_eq_false (c := '<') (by decide) hlt
    have hT : hasSub ['=', '='] (n ++ '=' :: '=' :: v) = true := hasSub_append _ _ _
    have hb : beforeFirst ['=', '='] (n ++ '=' :: '=' :: v) = n := beforeFirst_append v hn3
    have ha : afterFirst ['=', '='] (n ++ '=' :: '=' :: v) = some v := afterFirst_append v hn3
    have hbv : beforeFirst ['=', '='] v = v := beforeFirst_of_not_mem hv3
    have hbEq : beforeFirst ['='] (n ++ '=' :: '=' :: v) = n :=
      @beforeFirst_append '=' [] n ('=' :: v) hn3
    refine ⟨?_, ⟨['='], ?_⟩⟩
    · simp [Main.createKpiTrackerName, hF1, hF2, hF3, hF4, hT, hb]
    · simp [Main.parseKpiExpr, pyPart1, hF1, hF2, hF3, hF4, hT, ha, hbv, hbEq]

theorem c4_parser_agreement_witness :
    Main.createKpiTrackerName ("a".toList ++ (['>', '='] ++ "5".toList)) = some "a".toList ∧
    ∃ o, Main.parseKpiExpr ("a".toList ++ (['>', '='] ++ "5".toList))
      = some (o, "5".toList, stripL "a".toList) :=
  c4_parser_agreement "a".toList "5".toList ['>', '=']
    (Or.inr (Or.inl rfl)) (by decide) (by decide)

/-- C3.  The code contradicts its own recovery comments: when the first
start attempt exhausts its wait budget without reaching SUCCESS (every
poll reports a running state), the recovery runs and the second start
operation is posted, but the loop's else clause falls through to the
final logError, which raises at once — the retried operation is never
polled, even though here it would report SUCCESS immediately.  The
second conjunct shows that the ERROR path with the same second attempt
does reach SUCCESS, as the claim describes for both paths. -/
theorem c3_start_retry_never_polled :
    MW.startTest (fun a _ => if a = 1 then some "RUNNING" else some "SUCCESS") 90
      = MW.StartOutcome.raisedTimeoutAfterRecovery ∧
    MW.startTest (fun a _ => if a = 1 then some "ERROR" else some "SUCCESS") 90
      = MW.StartOutcome.success 2 0 := by decide

theorem pollLoopExit_some_iff (statuses : Nat → String) (fuel : Nat) :
    ∀ k n, Main.pollLoopExit statuses fuel k = some n ↔
      (k ≤ n ∧ n < k + fuel ∧ Main.stopStatus (statuses n) = true ∧
        ∀ m, k ≤ m → m < n → Main.stopStatus (statuses m) = false) := by
  induction fuel with
  | zero =>
    intro k n
    simp only [Main.pollLoopExit]
    constructor
    · intro h
      exact absurd h (by simp)
    · rintro ⟨h1, h2, _⟩
      omega
  | succ f ih =>
    intro k n
    by_cases hs : Main.stopStatus (statuses k) = true
    · simp only [Main.pollLoopExit, hs, if_true, Option.some.injEq]
      constructor
      · rintro rfl
        exact ⟨le_refl k, by omega, hs, fun m h1 h2 => by omega⟩
      · rintro ⟨h1, _, h3, h4⟩
        rcases Nat.eq_or_lt_of_le h1 with rfl | hlt
        · rfl
        · rw [h4 k (le_refl k) hlt] at hs
          exact absurd hs (by simp)
    · have hs' : Main.stopStatus (statuses k) = false := by
        simpa using hs
      simp only [Main.pollLoopExit, hs', if_false, Bool.false_eq_true]
      rw [ih (k + 1) n]
      constructor
      · rintro ⟨h1, h2, h3, h4⟩
        refine ⟨by omega, by omega, h3, fun m hm1 hm2 => ?_⟩
        rcases Nat.eq_or_lt_of_le hm1 with rfl | h
        · exact hs'
        · exact h4 m h hm2
      · rintro ⟨h1, h2, h3, h4⟩
        have hkn : k ≠ n := by
          rintro rfl
          rw [h3] at hs'
          exact absurd hs' (by simp)
        exact ⟨by omega, by omega, h3, fun m hm1 hm2 => h4 m (by omega) hm2⟩

/-- C5.  The KPI polling loop exits normally at iteration n exactly when
the session status fetched at iteration n is STOPPING or STOPPED while
every earlier iteration saw some other status (and the fuel bound allows
reaching n); with any other status the loop continues polling, so it
never exits normally under another status. -/
theorem c5_poll_loop_exit_condition (statuses : Nat → String) (fuel n : Nat) :
    Main.pollLoopExit statuses fuel 0 = some n ↔
      (n < fuel ∧ (statuses n = "STOPPING" ∨ statuses n = "STOPPED") ∧
        ∀ m < n, ¬(statuses m = "STOPPING" ∨ statuses m = "STOPPED")) := by
  have hT : ∀ s, Main.stopStatus s = true ↔ (s = "STOPPING" ∨ s = "STOPPED") := by
    intro s
    simp [Main.stopStatus]
  have hF : ∀ s, Main.stopStatus s = false ↔ ¬(s = "STOPPING" ∨ s = "STOPPED") := by
    intro s
    rw [← hT s]
    cases Main.stopStatus s <;> simp
  rw [pollLoopExit_some_iff statuses fuel 0 n]
  constructor
  · rintro ⟨_, h2, h3, h4⟩
    exact ⟨by omega, (hT _).mp h3,
      fun m hm => (hF _).mp (h4 m (Nat.zero_le m) hm)⟩
  · rintro ⟨h1, h2, h3⟩
    exact ⟨Nat.zero_le n, by omega, (hT _).mpr h2,
      fun m _ hm => (hF _).mpr (h3 m hm)⟩

theorem artifactPollAux_some_iff (states : Nat → String) (fuel : Nat) :
    ∀ w k n, w ≤ fuel →
      (MW.artifactPollAux states fuel w k = some n ↔
        (k ≤ n ∧ 5 * (n - k) < w ∧ states n = "SUCCESS" ∧
          ∀ m, k ≤ m → m < n → states m ≠ "SUCCESS" ∧ states m ≠ "ERROR")) := by
  induction fuel with
  | zero =>
    intro w k n hw
    have hw0 : w = 0 := by omega
    subst hw0
    simp only [MW.artifactPollAux]
    constructor
    · intro h
      exact absurd h (by simp)
    · rintro ⟨_, h2, _⟩
      omega
  | succ f ih =>
    intro w k n hw
    by_cases hw0 : w = 0
    · subst hw0
      simp only [MW.artifactPollAux, if_pos rfl]
      constructor
      · intro h
        exact absurd h (by simp)
      · rintro ⟨_, h2, _⟩
        omega
    · by_cases hsk : states k = "SUCCESS"
      · simp only [MW.artifactPollAux, if_neg hw0, if_pos hsk, Option.some.injEq]
        constructor
        · rintro rfl
          exact ⟨le_refl k, by omega, hsk, fun m h1 h2 => by omega⟩
        · rintro ⟨h1, _, h3, h4⟩
          rcases Nat.eq_or_lt_of_le h1 with rfl | hlt
          · rfl
          · exact absurd hsk (h4 k (le_refl k) hlt).1
      · by_cases hek : states k = "ERROR"
        · simp only [MW.artifactPollAux, if_neg hw0, if_neg hsk, if_pos hek]
          constructor
          · intro h
            exact absurd h (by simp)
          · rintro ⟨h1, _, h3, h4⟩
            rcases Nat.eq_or_lt_of_le h1 with rfl | hlt
            · exact (hsk h3).elim
            · exact ((h4 k (le_refl k) hlt).2 hek).elim
        · simp only [MW.artifactPollAux, if_neg hw0, if_neg hsk, if_neg hek]
          rw [ih (w - 5) (k + 1) n (by omega)]
          constructor
          · rintro ⟨h1, h2, h3, h4⟩
            refine ⟨by omega, by omega, h3, fun m hm1 hm2 => ?_⟩
            rcases Nat.eq_or_lt_of_le hm1 with rfl | h
            · exact ⟨hsk, hek⟩
            · exact h4 m h hm2
          · rintro ⟨h1, h2, h3, h4⟩
            have hkn : k ≠ n := by
              rintro rfl
              exact hsk h3
            exact ⟨by omega, by omega, h3, fun m hm1 hm2 => h4 m (by omega) hm2⟩

theorem artifactPoll_some_iff (states : Nat → String) (w n : Nat) :
    MW.artifactPoll states w = some n ↔
      (5 * n < w ∧ states n = "SUCCESS" ∧
        ∀ m < n, states m ≠ "SUCCESS" ∧ states m ≠ "ERROR") := by
  rw [MW.artifactPoll, artifactPollAux_some_iff states w w 0 n (le_refl w)]
  constructor
  · rintro ⟨_, h2, h3, h4⟩
    exact ⟨by omega, h3, fun m hm => h4 m (Nat.zero_le m) hm⟩
  · rintro ⟨h1, h2, h3⟩
    exact ⟨Nat.zero_le n, by omega, h2, fun m _ hm => h3 m hm⟩

theorem artifactShape_spec (postOk : Bool) (states : Nat → String) (wait : Nat)
    (path : String) : ∀ f,
    (if postOk = false then none
     else match MW.artifactPoll states wait with
          | none => none
          | some _ => some path) = some f ↔
      (postOk = true ∧ f = path ∧
        ∃ n, 5 * n < wait ∧ states n = "SUCCESS" ∧
          ∀ m < n, states m ≠ "SUCCESS" ∧ states m ≠ "ERROR") := by
  intro f
  cases postOk with
  | false => simp
  | true =>
    simp only [if_neg (by simp : ¬(true = false)), true_and]
    cases hpoll : MW.artifactPoll states wait with
    | none =>
      simp only []
      constructor
      · intro h
        exact absurd h (by simp)
      · rintro ⟨_, n, hn⟩
        have := (artifactPoll_some_iff states wait n).mpr hn
        rw [hpoll] at this
        exact absurd this (by simp)
    | some j =>
      simp only [Option.some.injEq]
      constructor
      · rintro rfl
        exact ⟨rfl, j, (artifactPoll_some_iff states wait j).mp hpoll⟩
      · rintro ⟨rfl, _⟩
        rfl

/-- C6.  Each artifact retrieval returns none exactly when the generate
POST misses the expected status code, a poll reports ERROR before any
SUCCESS, or the wait budget (decremented by 5 per poll) is exhausted
without SUCCESS; when SUCCESS is reached it returns the path of the
file it wrote: the PDF path, the CSV zip path, and the capture archive
path respectively. -/
theorem c6_artifact_retrieval (postOk : Bool) (states : Nat → String) (wait : Nat)
    (resultsFolder testcaseName dispositionName : String) :
    (∀ f, MW.getPDFreport postOk states wait resultsFolder testcaseName = some f ↔
      (postOk = true ∧ f = resultsFolder ++ "/" ++ testcaseName ++ ".pdf" ∧
        ∃ n, 5 * n < wait ∧ states n = "SUCCESS" ∧
          ∀ m < n, states m ≠ "SUCCESS" ∧ states m ≠ "ERROR")) ∧
    (∀ f, MW.getCSVs postOk states wait resultsFolder testcaseName = some f ↔
      (postOk = true ∧ f = resultsFolder ++ "/" ++ testcaseName ++ "_csv.zip" ∧
        ∃ n, 5 * n < wait ∧ states n = "SUCCESS" ∧
          ∀ m < n, states m ≠ "SUCCESS" ∧ states m ≠ "ERROR")) ∧
    (∀ f, MW.getCapturedLogs postOk states wait resultsFolder testcaseName
        dispositionName = some f ↔
      (postOk = true ∧ f = resultsFolder ++ "/" ++ testcaseName ++ "-" ++ dispositionName ∧
        ∃ n, 5 * n < wait ∧ states n = "SUCCESS" ∧
          ∀ m < n, states m ≠ "SUCCESS" ∧ states m ≠ "ERROR")) :=
  ⟨artifactShape_spec postOk states wait _,
   artifactShape_spec postOk states wait _,
   artifactShape_spec postOk states wait _⟩

theorem foldl_append_singleton (rows : List (List String)) :
    ∀ acc : List (List String),
      rows.foldl (fun acc row => acc ++ [row]) acc = acc ++ rows := by
  induction rows with
  | nil => intro acc; simp
  | cons r rs ih =>
    intro acc
    simp only [List.foldl]
    rw [ih (acc ++ [r])]
    simp

/-- C7.  convertCsvFileToJsonFile writes exactly the list of the CSV
rows in file order as the JSON array and returns true when the write
succeeds; when writing raises, it returns false (after logging a
warning) and nothing is written. -/
theorem c7_convert_csv_to_json (rows : List (List String)) (writeOk : Bool) :
    Utils.convertCsvFileToJsonFile rows writeOk
      = (writeOk, if writeOk then some rows else none) := by
  unfold Utils.convertCsvFileToJsonFile
  rw [foldl_append_singleton rows []]
  cases writeOk <;> simp

/-- C8.  One polling iteration sleeps pollStatInterval times 100 seconds
(30 seconds when the interval is unset, from 0.30 times 100), while the
remaining-duration counter is decremented by only pollStatInterval
(0.30 when unset) — the sleep is one hundred times the amount accounted
for. -/
theorem c8_sleep_vs_decrement (p : ℚ) :
    Main.setPollInterval (some p) = p * 100 ∧
    Main.setPollInterval none = 30 ∧
    Main.pollInterval (some p) = p ∧
    Main.pollInterval none = 3 / 10 := by
  refine ⟨rfl, ?_, rfl, ?_⟩ <;> norm_num [Main.setPollInterval, Main.pollInterval]

theorem findKpiIndex_foldl_eq (m : String → Bool) (l : List String) :
    ∀ (s : List String) (acc : Option Nat),
      s.foldl (fun acc x => if m x then some (Main.idxOf x l) else acc) acc
        = (match (s.filter m).getLast? with
           | none => acc
           | some e => some (Main.idxOf e l)) := by
  intro s
  induction s with
  | nil => intro acc; simp
  | cons x s' ih =>
    intro acc
    by_cases hx : m x
    · have hstep : (x :: s').foldl (fun acc x => if m x then some (Main.idxOf x l) else acc) acc
          = s'.foldl (fun acc x => if m x then some (Main.idxOf x l) else acc)
              (some (Main.idxOf x l)) := by
        simp [List.foldl, hx]
      have hfc : (x :: s').filter m = x :: s'.filter m := by simp [hx]
      rw [hstep, ih (some (Main.idxOf x l)), hfc]
      cases hfl : (s'.filter m).getLast? with
      | none =>
        have hnil : s'.filter m = [] := List.getLast?_eq_none_iff.mp hfl
        rw [hnil]
        simp
      | some e =>
        cases hsf : s'.filter m with
        | nil =>
          rw [hsf] at hfl
          exact absurd hfl (by simp)
        | cons y ys =>
          have hy : (y :: ys).getLast? = some e := by
            rw [← hsf]
            exact hfl
          rw [List.getLast?_cons_cons, hy]
    · have hx' : m x = false := by simpa using hx
      have hstep : (x :: s').foldl (fun acc x => if m x then some (Main.idxOf x l) else acc) acc
          = s'.foldl (fun acc x => if m x then some (Main.idxOf x l) else acc) acc := by
        simp [List.foldl, hx']
      have hfc : (x :: s').filter m = s'.filter m := by simp [hx']
      rw [hstep, ih acc, hfc]
  
theorem idxOf_get {e : String} {l : List String} (h : e ∈ l) :
    ∃ hlt : Main.idxOf e l < l.length, l.get ⟨Main.idxOf e l, hlt⟩ = e := by
  induction l with
  | nil => exact absurd h (List.not_mem_nil e)
  | cons y ys ih =>
    by_cases hy : y = e
    · refine ⟨by simp [Main.idxOf, hy], ?_⟩
      simp [Main.idxOf, hy]
    · have hmem : e ∈ ys := by
        rcases List.mem_cons.mp h with rfl | hm
        · exact absurd rfl hy
        · exact hm
      obtain ⟨hlt, hget⟩ := ih hmem
      refine ⟨by simp [Main.idxOf, hy]; omega, ?_⟩
      simpa [Main.idxOf, hy] using hget

/-- C9.  The expression-selection loop of the run-time KPI check: when no
expression of the stat's list matches the runtime KPI name (taken as a
case-insensitive start-anchored pattern), the KPI is skipped (index
none); when at least one matches, the index recorded is the list-index
of the last matching expression, and the expression at that index is
that last matching expression. -/
theorem c9_kpi_match_selection (rk : String) (l : List String) :
    (Main.findKpiIndex (Main.kpiNameMatches rk) l = none ↔
      ∀ x ∈ l, Main.kpiNameMatches rk x = false) ∧
    ∀ e, (l.filter (Main.kpiNameMatches rk)).getLast? = some e →
      (Main.findKpiIndex (Main.kpiNameMatches rk) l = some (Main.idxOf e l) ∧
        ∃ hlt : Main.idxOf e l < l.length, l.get ⟨Main.idxOf e l, hlt⟩ = e) := by
  have hfold := findKpiIndex_foldl_eq (Main.kpiNameMatches rk) l l none
  constructor
  · rw [Main.findKpiIndex, hfold]
    cases hfl : (l.filter (Main.kpiNameMatches rk)).getLast? with
    | none =>
      simp only []
      have hnil : l.filter (Main.kpiNameMatches rk) = [] := by
        cases hsf : l.filter (Main.kpiNameMatches rk) with
        | nil => rfl
        | cons y ys =>
          rw [hsf] at hfl
          simp [List.getLast?] at hfl
      constructor
      · intro _ x hx
        by_contra hmx
        have hmx' : Main.kpiNameMatches rk x = true := by simpa using hmx
        have : x ∈ l.filter (Main.kpiNameMatches rk) := List.mem_filter.mpr ⟨hx, hmx'⟩
        rw [hnil] at this
        exact absurd this (List.not_mem_nil x)
      · intro _
        trivial
    | some e =>
      simp only []
      constructor
      · intro h
        exact absurd h (by simp)
      · intro hall
        have hmem := List.mem_filter.mp (List.mem_of_getLast?_eq_some hfl)
        rw [hall e hmem.1] at hmem
        exact absurd hmem.2 (by simp)
  · intro e he
    refine ⟨?_, ?_⟩
    · rw [Main.findKpiIndex, hfold, he]
    · have hmem := List.mem_filter.mp (List.mem_of_getLast?_eq_some he)
      exact idxOf_get hmem.1

theorem c9_kpi_match_selection_witness :
    Main.findKpiIndex (Main.kpiNameMatches "reg")
        ["Registration Initiated=100", "REGISTRATION Succeeded=20"]
      = some (Main.idxOf "REGISTRATION Succeeded=20"
          ["Registration Initiated=100", "REGISTRATION Succeeded=20"]) ∧
    ∃ hlt : Main.idxOf "REGISTRATION Succeeded=20"
        ["Registration Initiated=100", "REGISTRATION Succeeded=20"]
          < (["Registration Initiated=100", "REGISTRATION Succeeded=20"] : List String).length,
      (["Registration Initiated=100", "REGISTRATION Succeeded=20"] : List String).get
        ⟨Main.idxOf "REGISTRATION Succeeded=20"
          ["Registration Initiated=100", "REGISTRATION Succeeded=20"], hlt⟩
        = "REGISTRATION Succeeded=20" :=
  (c9_kpi_match_selection "reg"
    ["Registration Initiated=100", "REGISTRATION Succeeded=20"]).2
    "REGISTRATION Succeeded=20" (by decide)

theorem buildSeries_eq (snaps : List (List (List ℚ))) :
    ∀ (names : List String) (idx : Nat) (acc : List (String × MW.StatValue)),
      names.Nodup → (∀ nm ∈ names, acc.any (fun p => p.1 = nm) = false) →
      MW.buildSeries snaps names idx acc
        = (MW.colSeriesList snaps names idx).map
            (fun vs => acc ++ names.zip (vs.map MW.StatValue.series)) := by
  intro names
  induction names with
  | nil =>
    intro idx acc _ _
    simp [MW.buildSeries, MW.colSeriesList]
  | cons nm ns ih =>
    intro idx acc hnd hacc
    have hnd' := List.nodup_cons.mp hnd
    cases hcs : MW.colSeries snaps idx with
    | none => simp [MW.buildSeries, MW.colSeriesList, hcs]
    | some v =>
      have hdi : MW.dictInsert acc nm (MW.StatValue.series v)
          = acc ++ [(nm, MW.StatValue.series v)] := by
        have hnone := hacc nm (List.mem_cons_self nm ns)
        simp only [MW.dictInsert, hnone, Bool.false_eq_true, if_false]
      have hacc2 : ∀ nm' ∈ ns,
          ((acc ++ [(nm, MW.StatValue.series v)]).any fun p => decide (p.1 = nm')) = false := by
        intro nm' hnm'
        have h1 := hacc nm' (List.mem_cons_of_mem nm hnm')
        have h2 : nm ≠ nm' := fun h => hnd'.1 (h ▸ hnm')
        simp [List.any_append, h1, h2]
      have hih := ih (idx + 1) (acc ++ [(nm, MW.StatValue.series v)]) hnd'.2 hacc2
      simp only [MW.buildSeries, MW.colSeriesList, hcs, hdi, hih]
      cases hrec : MW.colSeriesList snaps ns (idx + 1) <;> simp
  
theorem buildSums_eq (rows : List (List ℚ)) :
    ∀ (names : List String) (idx : Nat) (acc : List (String × MW.StatValue)),
      names.Nodup → (∀ nm ∈ names, acc.any (fun p => p.1 = nm) = false) →
      MW.buildSums rows names idx acc
        = (MW.colSumList rows names idx).map
            (fun vs => acc ++ names.zip (vs.map MW.StatValue.total)) := by
  intro names
  induction names with
  | nil =>
    intro idx acc _ _
    simp [MW.buildSums, MW.colSumList]
  | cons nm ns ih =>
    intro idx acc hnd hacc
    have hnd' := List.nodup_cons.mp hnd
    cases hcs : MW.colSum rows idx with
    | none => simp [MW.buildSums, MW.colSumList, hcs]
    | some v =>
      have hdi : MW.dictInsert acc nm (MW.StatValue.total v)
          = acc ++ [(nm, MW.StatValue.total v)] := by
        have hnone := hacc nm (List.mem_cons_self nm ns)
        simp only [MW.dictInsert, hnone, Bool.false_eq_true, if_false]
      have hacc2 : ∀ nm' ∈ ns,
          ((acc ++ [(nm, MW.StatValue.total v)]).any fun p => decide (p.1 = nm')) = false := by
        intro nm' hnm'
        have h1 := hacc nm' (List.mem_cons_of_mem nm hnm')
        have h2 : nm ≠ nm' := fun h => hnd'.1 (h ▸ hnm')
        simp [List.any_append, h1, h2]
      have hih := ih (idx + 1) (acc ++ [(nm, MW.StatValue.total v)]) hnd'.2 hacc2
      simp only [MW.buildSums, MW.colSumList, hcs, hdi, hih]
      cases hrec : MW.colSumList rows ns (idx + 1) <;> simp

/-- C10.  getAllStats returns None when the HTTP status is unexpected or
the columns field is null; when the first column is timestamp it returns
the dictionary pairing each remaining column name with that column's
time series across all snapshots; when the first column is not timestamp
it returns the dictionary pairing each remaining column name with the
sum of that column over the first snapshot. -/
theorem c10_getAllStats (statusOk : Bool) (columns : Option (List String))
    (snaps : List (List (List ℚ))) :
    (statusOk = false → MW.getAllStats statusOk columns snaps = .ok none) ∧
    (MW.getAllStats true none snaps = .ok none) ∧
    (∀ rest vs, rest.Nodup → MW.colSeriesList snaps rest 1 = some vs →
      MW.getAllStats true (some ("timestamp" :: rest)) snaps
        = .ok (some (rest.zip (vs.map MW.StatValue.series)))) ∧
    (∀ c0 rest s0 stail sums, c0 ≠ "timestamp" → snaps = s0 :: stail → rest.Nodup →
      MW.colSumList s0 rest 1 = some sums →
      MW.getAllStats true (some (c0 :: rest)) snaps
        = .ok (some (rest.zip (sums.map MW.StatValue.total)))) := by
  refine ⟨?_, ?_, ?_, ?_⟩
  · intro h
    simp [MW.getAllStats, h]
  · simp [MW.getAllStats]
  · intro rest vs hnd hcl
    have hb := buildSeries_eq snaps rest 1 [] hnd (by simp)
    rw [hcl] at hb
    simp [MW.getAllStats, hb]
  · intro c0 rest s0 stail sums hc0 hsnaps hnd hcl
    subst hsnaps
    have hb := buildSums_eq s0 rest 1 [] hnd (by simp)
    rw [hcl] at hb
    simp [MW.getAllStats, hc0, hb]

theorem c10_getAllStats_witness :
    MW.getAllStats true (some ["timestamp", "a", "b"]) [[[0, 1, 10]], [[1, 2, 20]]]
      = .ok (some [("a", MW.StatValue.series [1, 2]), ("b", MW.StatValue.series [10, 20])]) :=
  (c10_getAllStats true (some ["timestamp", "a", "b"]) [[[0, 1, 10]], [[1, 2, 20]]]).2.2.1
    ["a", "b"] [[1, 2], [10, 20]] (by decide) rfl
